import Mathlib

set_option maxRecDepth 16000

/-!
Verification development for the bittensor registration / commit-reveal core
and the subnet hyperparameter CLI helpers.

Part 1 embeds `allowed_value` and the boolean coercion of
`SubnetSudoCommand._run` from `bittensor/v2/commands/network.py`.

Part 2 models, from the specification, the registration orchestrator state
machine and the weight commit-reveal pipeline, whose implementation is not
part of the provided source set (only its tests are).
-/

/-- A Python value as it can reach `allowed_value` from `SubnetSudoCommand._run`:
either the boolean produced by the coercion step or the raw CLI string. -/
inductive PyValue where
  | bool : Bool → PyValue
  | str : String → PyValue
deriving DecidableEq, Repr

/-- An exact decimal number `mantissa / 10 ^ scale`, used for the weight
values fed to the weight codec model. -/
structure DecimalLit where
  mantissa : Int
  scale : Nat
deriving DecidableEq, Repr

/-- Numeric value of a list of decimal digit characters. -/
def digitsToNat (cs : List Char) : Nat :=
  cs.foldl (fun a c => a * 10 + (c.toNat - 48)) 0

/-- Splitting of a character list at every occurrence of a separator,
mirroring Python `str.split(sep)`: the empty string yields one empty part,
and adjacent separators yield empty parts. -/
def splitOnChar (sep : Char) : List Char → List (List Char)
  | [] => [[]]
  | c :: rest =>
      let r := splitOnChar sep rest
      if c = sep then [] :: r
      else
        match r with
        | [] => [[c]]
        | g :: gs => (c :: g) :: gs

/-- Model of Python `value.split(",")`. -/
def pySplit (s : String) : List String :=
  (splitOnChar ',' s.data).map List.asString

/-- An IEEE 754 binary64 value as produced by Python `float(s)`: a finite
double with exact value `mantissa * 2 ^ exp2`, a signed infinity, or NaN. -/
inductive PyFloat where
  | finite : Int → Int → PyFloat
  | inf : Bool → PyFloat
  | nan : PyFloat
deriving DecidableEq, Repr

/-- Whitespace as stripped by Python `float` (Unicode whitespace code
points, given numerically). -/
def isPySpace (c : Char) : Bool :=
  ([9, 10, 11, 12, 13, 28, 29, 30, 31, 32, 133, 160, 5760,
    8192, 8193, 8194, 8195, 8196, 8197, 8198, 8199, 8200, 8201, 8202,
    8232, 8233, 8239, 8287, 12288] : List Nat).contains c.toNat

/-- Removal of leading and trailing Python whitespace. -/
def pyStripChars (cs : List Char) : List Char :=
  ((cs.dropWhile isPySpace).reverse.dropWhile isPySpace).reverse

/-- Consumption of a run of decimal digits possibly containing single
underscores strictly between digits (PEP 515): returns the digits with
underscores removed and the unconsumed remainder, or `none` when an
underscore is leading, trailing or doubled within the run. The boolean
argument records a just-consumed underscore still awaiting a digit. -/
def digitRunGo : List Char → List Char → Bool → Option (List Char × List Char)
  | [], acc, pending => if pending then none else some (acc.reverse, [])
  | c :: rest, acc, pending =>
      if c.isDigit then digitRunGo rest (c :: acc) false
      else if c = '_' then
        if pending || acc.isEmpty then none
        else digitRunGo rest acc true
      else if pending then none
      else some (acc.reverse, c :: rest)

/-- Count of significant decimal digits (leading zeros dropped). -/
def sigLen (ds : List Char) : Nat :=
  (ds.dropWhile (fun c => c = '0')).length

/-- Case-insensitive comparison of a character list with a lowercase word. -/
def lowerEq (cs : List Char) (w : List Char) : Bool :=
  cs.map Char.toLower == w

/-- Parse of the unsigned decimal part of a Python float literal
`digits [. digits] [(e|E) [sign] digits]` with PEP 515 underscores,
at least one mantissa digit, and nothing left over: returns the mantissa
digits as a number, its count of significant digits, and the power of ten
(exponent minus the number of fractional digits). -/
def parseDecimalChars (cs : List Char) : Option (Nat × Nat × Int) :=
  let ipStep : Option (List Char × List Char) :=
    match cs with
    | c :: _ => if c.isDigit then digitRunGo cs [] false else some ([], cs)
    | [] => some ([], [])
  match ipStep with
  | none => none
  | some (ip, rest1) =>
      let fracStep : Option (List Char × List Char) :=
        match rest1 with
        | '.' :: rest2 =>
            match rest2 with
            | c :: _ =>
                if c.isDigit then digitRunGo rest2 [] false else some ([], rest2)
            | [] => some ([], [])
        | _ => some ([], rest1)
      match fracStep with
      | none => none
      | some (fp, rest3) =>
          if ip.isEmpty && fp.isEmpty then none
          else
            let m10 := digitsToNat (ip ++ fp)
            let sd := sigLen (ip ++ fp)
            match rest3 with
            | [] => some (m10, sd, -(fp.length : Int))
            | c :: rest4 =>
                if c = 'e' ∨ c = 'E' then
                  let signAndDigits : Bool × List Char :=
                    match rest4 with
                    | '-' :: r => (true, r)
                    | '+' :: r => (false, r)
                    | r => (false, r)
                  let negExp := signAndDigits.1
                  match signAndDigits.2 with
                  | c2 :: _ =>
                      if c2.isDigit then
                        match digitRunGo signAndDigits.2 [] false with
                        | some (ed, []) =>
                            let ev : Int := (digitsToNat ed : Int)
                            some (m10, sd,
                              (if negExp then -ev else ev) - (fp.length : Int))
                        | _ => none
                      else none
                  | [] => none
                else none

/-- Decidable test for `2 ^ E <= n / d` on positive naturals, by moving the
power of two to the side that keeps it a natural power. -/
def pow2LE (n d : Nat) (E : Int) : Bool :=
  if 0 ≤ E then decide (d * 2 ^ E.toNat ≤ n)
  else decide (d ≤ n * 2 ^ (-E).toNat)

/-- Binary search step for the binary exponent: finds the largest offset in
[lo, hi] whose exponent E = offset - 1130 still satisfies `2 ^ E <= n / d`,
assuming the property holds at lo and fails above hi. -/
def flog2Go (n d : Nat) : Nat → Nat → Nat → Nat
  | 0, lo, _ => lo
  | fuel + 1, lo, hi =>
      if hi ≤ lo then lo
      else
        let mid := (lo + hi + 1) / 2
        if pow2LE n d ((mid : Int) - 1130) then flog2Go n d fuel mid hi
        else flog2Go n d fuel lo (mid - 1)

/-- Floor of the binary logarithm of `n / d` for values within the range
relevant to binary64 rounding (callers clamp to `2 ^ -1130 < n / d < 2 ^ 1100`
beforehand). -/
def flog2 (n d : Nat) : Int :=
  (flog2Go n d 14 0 2230 : Int) - 1130

/-- Round-to-nearest, ties-to-even conversion of the exact decimal value
`(-1) ^ neg * m10 * 10 ^ p` (where `sigDigits` is the count of significant
decimal digits of `m10`) to an IEEE 754 binary64 value, as performed by
Python `float` on a parsed literal: normal and subnormal finite results,
overflow to a signed infinity, and underflow to zero. Magnitudes beyond any
representable double are clamped coarsely by the decimal exponent before
the exact computation. -/
def pyRound (neg : Bool) (m10 : Nat) (sigDigits : Nat) (p : Int) : PyFloat :=
  if m10 = 0 then .finite 0 0
  else if 330 ≤ (sigDigits : Int) + p then .inf neg
  else if (sigDigits : Int) + p ≤ -340 then .finite 0 0
  else
    let n : Nat := if 0 ≤ p then m10 * 10 ^ p.toNat else m10
    let d : Nat := if 0 ≤ p then 1 else 10 ^ (-p).toNat
    let E : Int := flog2 n d
    let e : Int := if E < -1022 then -1074 else E - 52
    let bigN : Nat := n * 2 ^ (-e).toNat
    let bigD : Nat := d * 2 ^ e.toNat
    let q : Nat := bigN / bigD
    let r : Nat := bigN % bigD
    let m : Nat :=
      if 2 * r < bigD then q
      else if bigD < 2 * r then q + 1
      else if q % 2 = 0 then q else q + 1
    let m2 : Nat := if m = 2 ^ 53 then 2 ^ 52 else m
    let e2 : Int := if m = 2 ^ 53 then e + 1 else e
    if 972 ≤ e2 then .inf neg
    else if m2 = 0 then .finite 0 0
    else .finite (if neg then -(m2 : Int) else (m2 : Int)) e2

/-- Model of Python `float(s)`: surrounding whitespace is stripped, an
optional sign is read, then case-insensitively `inf`, `infinity` or `nan`,
or a decimal literal with optional fraction, optional exponent and PEP 515
underscores; the decimal value is rounded to the nearest binary64 double
(ties to even). Returns `none` exactly where Python raises `ValueError`.
Non-ASCII decimal digits (which CPython de-localizes to ASCII) are not
modelled; input strings are assumed to use ASCII digits. -/
def pyFloat (s : String) : Option PyFloat :=
  let cs := pyStripChars s.data
  let signAndRest : Bool × List Char :=
    match cs with
    | '-' :: rest => (true, rest)
    | '+' :: rest => (false, rest)
    | rest => (false, rest)
  let neg := signAndRest.1
  let body := signAndRest.2
  if lowerEq body ['i', 'n', 'f'] ||
      lowerEq body ['i', 'n', 'f', 'i', 'n', 'i', 't', 'y'] then
    some (.inf neg)
  else if lowerEq body ['n', 'a', 'n'] then
    some .nan
  else
    match parseDecimalChars body with
    | none => none
    | some (m10, sd, p) => some (pyRound neg m10 sd p)

/-- Decidable test for `m * 2 ^ e <= b` on a finite double, by moving the
power of two to the side that keeps it a natural power. -/
def dyLE (m e b : Int) : Bool :=
  if 0 ≤ e then decide (m * 2 ^ e.toNat ≤ b)
  else decide (m ≤ b * 2 ^ (-e).toNat)

/-- Decidable test for `b <= m * 2 ^ e` on a finite double. -/
def dyGE (m e b : Int) : Bool :=
  if 0 ≤ e then decide (b ≤ m * 2 ^ e.toNat)
  else decide (b * 2 ^ (-e).toNat ≤ m)

/-- Decidable test for `m * 2 ^ e < b` on a finite double. -/
def dyLT (m e b : Int) : Bool :=
  if 0 ≤ e then decide (m * 2 ^ e.toNat < b)
  else decide (m < b * 2 ^ (-e).toNat)

/-- Decidable test for `b < m * 2 ^ e` on a finite double. -/
def dyGT (m e b : Int) : Bool :=
  if 0 ≤ e then decide (b < m * 2 ^ e.toNat)
  else decide (b * 2 ^ (-e).toNat < m)

/-- IEEE comparison `x <= b` of a double against an integer bound: exact on
finite values, true only for negative infinity among infinities, and always
false on NaN. -/
def PyFloat.leB : PyFloat → Int → Bool
  | .finite m e, b => dyLE m e b
  | .inf neg, _ => neg
  | .nan, _ => false

/-- IEEE comparison `b <= x` of a double against an integer bound. -/
def PyFloat.geB : PyFloat → Int → Bool
  | .finite m e, b => dyGE m e b
  | .inf neg, _ => !neg
  | .nan, _ => false

/-- IEEE comparison `x < b` of a double against an integer bound. -/
def PyFloat.ltB : PyFloat → Int → Bool
  | .finite m e, b => dyLT m e b
  | .inf neg, _ => neg
  | .nan, _ => false

/-- IEEE comparison `b < x` of a double against an integer bound. -/
def PyFloat.gtB : PyFloat → Int → Bool
  | .finite m e, b => dyGT m e b
  | .inf neg, _ => !neg
  | .nan, _ => false

/-- Exact rational value of a finite double `m * 2 ^ e`. -/
def dyadicRat (m e : Int) : ℚ :=
  (m : ℚ) * (2 : ℚ) ^ e

/-- Structured result payload of `allowed_value`: either the input passed
through unchanged, the pair `[alpha_low, alpha_high]`, or one of the three
error messages the Python function can produce (the bound-violation messages
interpolate the offending value, kept here as the payload). -/
inductive AVResult where
  | passthrough : PyValue → AVResult
  | alphaPair : PyFloat → PyFloat → AVResult
  | errHigh : PyFloat → AVResult
  | errLow : PyFloat → AVResult
  | errNumber : AVResult
deriving DecidableEq, Repr

/-- Embedding of `allowed_value` from `bittensor/v2/commands/network.py`
(lines 61-95). A boolean value passes through; for param `alpha_values` a
string value is split on a comma into exactly two float literals, the pair
is bounds-checked with the comparisons `alpha_high <= 52428 or
alpha_high >= 65535` first, then `alpha_low < 0 or alpha_low > 52428`,
under IEEE double comparison semantics (so a NaN part passes both checks);
any `ValueError` from the two-way unpacking or the float parses is caught
and reported as the message `a number or a boolean`; every other param
passes through unchecked. -/
def allowed_value (param : String) (value : PyValue) : Bool × AVResult :=
  match value with
  | .bool _ => (true, .passthrough value)
  | .str s =>
      if param = "alpha_values" then
        match pySplit s with
        | [alphaLowStr, alphaHighStr] =>
            match pyFloat alphaHighStr, pyFloat alphaLowStr with
            | some alphaHigh, some alphaLow =>
                if alphaHigh.leB 52428 || alphaHigh.geB 65535 then
                  (false, .errHigh alphaHigh)
                else if alphaLow.ltB 0 || alphaLow.gtB 52428 then
                  (false, .errLow alphaLow)
                else
                  (true, .alphaPair alphaLow alphaHigh)
            | _, _ => (false, .errNumber)
        | _ => (false, .errNumber)
      else (true, .passthrough value)

/-- Model of Python `str.lower()` (ASCII case folding). -/
def pyLower (s : String) : String :=
  ⟨s.data.map Char.toLower⟩

/-- The four hyperparameter names whose CLI string value
`SubnetSudoCommand._run` (lines 422-432) coerces to a boolean. -/
def boolCoercedParams : List String :=
  ["network_registration_allowed", "network_pow_registration_allowed",
   "commit_reveal_weights_enabled", "liquid_alpha_enabled"]

/-- Embedding of the value-coercion step of `SubnetSudoCommand._run`
(`bittensor/v2/commands/network.py`, lines 422-432): for exactly the four
listed params the string value becomes `True` iff it lowercases to `true`
or equals `1`, else `False`; all other params keep the raw string. -/
def subnetSudoCoerce (param : String) (value : String) : PyValue :=
  if param = "network_registration_allowed"
      ∨ param = "network_pow_registration_allowed"
      ∨ param = "commit_reveal_weights_enabled"
      ∨ param = "liquid_alpha_enabled" then
    .bool (pyLower value == "true" || value == "1")
  else
    .str value

example : pyFloat "100" = some (.finite 7036874417766400 (-46)) := by decide
example : pyFloat "1e4" = some (.finite 5497558138880000 (-39)) := by decide
example : pyFloat " 100 " = pyFloat "100" := by decide
example : pyFloat "1_000" = pyFloat "1e3" := by decide
example : pyFloat "0.1" = some (.finite 7205759403792794 (-56)) := by decide
example : pyFloat "52428.000000000001" = pyFloat "52428" := by decide
example : pyFloat "-inf" = some (.inf true) := by decide
example : pyFloat "Infinity" = some (.inf false) := by decide
example : pyFloat "NAN" = some .nan := by decide
example : pyFloat "1e310" = some (.inf false) := by decide
example : pyFloat "1e-400" = some (.finite 0 0) := by decide
example : pyFloat "" = none := by decide
example : pyFloat "1.2.3" = none := by decide
example : pyFloat "1__0" = none := by decide
example : pyFloat "1_" = none := by decide
example : pyFloat "_1" = none := by decide
example : pyFloat "1e" = none := by decide
example : pyFloat "1e+" = none := by decide
example : pyFloat "." = none := by decide
example : pyFloat "1." = some (.finite 4503599627370496 (-52)) := by decide
example : pySplit "100,60000" = ["100", "60000"] := by decide
example : allowed_value "alpha_values" (.str "100,60000") =
    (true, .alphaPair (.finite 7036874417766400 (-46))
      (.finite 8246337208320000 (-37))) := by decide
example : allowed_value "alpha_values" (.str "100,52428.000000000001") =
    (false, .errHigh (.finite 7205649452630016 (-37))) := by decide
example : allowed_value "alpha_values" (.str "-1,60000") =
    (false, .errLow (.finite (-4503599627370496) (-52))) := by decide
example : allowed_value "alpha_values" (.str " 1e2 , 6e4 ") =
    (true, .alphaPair (.finite 7036874417766400 (-46))
      (.finite 8246337208320000 (-37))) := by decide
example : allowed_value "alpha_values" (.str "0,inf") =
    (false, .errHigh (.inf false)) := by decide
example : allowed_value "alpha_values" (.str "abc") = (false, .errNumber) := by decide
example : allowed_value "alpha_values" (.str "1,2,3") = (false, .errNumber) := by decide
example : allowed_value "tempo" (.str "0.5") = (true, .passthrough (.str "0.5")) := by decide
example : subnetSudoCoerce "liquid_alpha_enabled" "TRUE" = .bool true := by decide
example : subnetSudoCoerce "liquid_alpha_enabled" "TRUE " = .bool false := by decide
example : subnetSudoCoerce "tempo" "1" = .str "1" := by decide

lemma dyadicRat_of_nonneg (m e : Int) (he : 0 ≤ e) :
    dyadicRat m e = ((m * 2 ^ e.toNat : Int) : ℚ) := by
  have h2 : (2 : ℚ) ^ e = (2 : ℚ) ^ e.toNat := by
    rw [← zpow_natCast, Int.toNat_of_nonneg he]
  rw [dyadicRat, h2]
  push_cast
  ring

lemma dyadicRat_of_neg (m e : Int) (he : ¬ 0 ≤ e) :
    dyadicRat m e = (m : ℚ) / (2 : ℚ) ^ (-e).toNat := by
  have h2 : (2 : ℚ) ^ e = ((2 : ℚ) ^ (-e).toNat)⁻¹ := by
    rw [← zpow_natCast, Int.toNat_of_nonneg (by omega : (0 : Int) ≤ -e),
      zpow_neg, inv_inv]
  rw [dyadicRat, h2, ← div_eq_mul_inv]

lemma dyPow_pos (k : Nat) : (0 : ℚ) < (2 : ℚ) ^ k := by
  positivity

lemma dyLE_iff (m e b : Int) : dyLE m e b = true ↔ dyadicRat m e ≤ (b : ℚ) := by
  unfold dyLE
  by_cases he : 0 ≤ e
  · rw [if_pos he, decide_eq_true_iff, dyadicRat_of_nonneg m e he]
    exact_mod_cast Iff.rfl
  · rw [if_neg he, decide_eq_true_iff, dyadicRat_of_neg m e he,
      div_le_iff₀ (dyPow_pos (-e).toNat)]
    exact_mod_cast Iff.rfl

lemma dyGE_iff (m e b : Int) : dyGE m e b = true ↔ (b : ℚ) ≤ dyadicRat m e := by
  unfold dyGE
  by_cases he : 0 ≤ e
  · rw [if_pos he, decide_eq_true_iff, dyadicRat_of_nonneg m e he]
    exact_mod_cast Iff.rfl
  · rw [if_neg he, decide_eq_true_iff, dyadicRat_of_neg m e he,
      le_div_iff₀ (dyPow_pos (-e).toNat)]
    exact_mod_cast Iff.rfl

lemma dyLT_iff (m e b : Int) : dyLT m e b = true ↔ dyadicRat m e < (b : ℚ) := by
  unfold dyLT
  by_cases he : 0 ≤ e
  · rw [if_pos he, decide_eq_true_iff, dyadicRat_of_nonneg m e he]
    exact_mod_cast Iff.rfl
  · rw [if_neg he, decide_eq_true_iff, dyadicRat_of_neg m e he,
      div_lt_iff₀ (dyPow_pos (-e).toNat)]
    exact_mod_cast Iff.rfl

lemma dyGT_iff (m e b : Int) : dyGT m e b = true ↔ (b : ℚ) < dyadicRat m e := by
  unfold dyGT
  by_cases he : 0 ≤ e
  · rw [if_pos he, decide_eq_true_iff, dyadicRat_of_nonneg m e he]
    exact_mod_cast Iff.rfl
  · rw [if_neg he, decide_eq_true_iff, dyadicRat_of_neg m e he,
      lt_div_iff₀ (dyPow_pos (-e).toNat)]
    exact_mod_cast Iff.rfl

/-- Decidable test for the happy path of the alpha_values branch of
`allowed_value`: the string splits on the comma into exactly two parts and
both parse as float literals. -/
def twoFloatParts (s : String) : Bool :=
  match pySplit s with
  | [a, b] => (pyFloat a).isSome && (pyFloat b).isSome
  | _ => false

/-- C10: in `SubnetSudoCommand._run`, exactly the four params
network_registration_allowed, network_pow_registration_allowed,
commit_reveal_weights_enabled and liquid_alpha_enabled have their string
value coerced to a boolean, which is True iff the value equals 1 or
case-insensitively equals true; any other string (yes, 0, TRUE with a
trailing space) silently becomes False, and values of all other params are
left uncoerced. -/
theorem C10_subnet_sudo_bool_coercion :
    (∀ (param value : String), param ∈ boolCoercedParams →
        subnetSudoCoerce param value =
          .bool (pyLower value == "true" || value == "1"))
  ∧ (∀ (param value : String), param ∉ boolCoercedParams →
        subnetSudoCoerce param value = .str value)
  ∧ subnetSudoCoerce "network_registration_allowed" "1" = .bool true
  ∧ subnetSudoCoerce "network_pow_registration_allowed" "TRUE" = .bool true
  ∧ subnetSudoCoerce "commit_reveal_weights_enabled" "yes" = .bool false
  ∧ subnetSudoCoerce "liquid_alpha_enabled" "0" = .bool false
  ∧ subnetSudoCoerce "network_registration_allowed" "TRUE " = .bool false
  ∧ subnetSudoCoerce "tempo" "1" = .str "1" := by
  refine ⟨?_, ?_, by decide, by decide, by decide, by decide, by decide, by decide⟩
  · intro param value hmem
    rw [subnetSudoCoerce, if_pos]
    simpa [boolCoercedParams, or_assoc] using hmem
  · intro param value hmem
    rw [subnetSudoCoerce, if_neg]
    intro hc
    exact hmem (by simpa [boolCoercedParams, or_assoc] using hc)

/-- Witness for C10 at the concrete param liquid_alpha_enabled, value True. -/
theorem C10_subnet_sudo_bool_coercion_witness :
    subnetSudoCoerce "liquid_alpha_enabled" "True" =
      .bool (pyLower "True" == "true" || "True" == "1") :=
  C10_subnet_sudo_bool_coercion.1 "liquid_alpha_enabled" "True" (by decide)

/-- Modelled from the spec: a POWSolution as consumed by the
RegistrationOrchestrator (spec section 3); the implementation of the PoW
engine is not part of the provided source set, so the solution is abstracted
to an identifier and the staleness verdict the Verifying state observes for
it (spec section 4.3), the only attributes the orchestrator state machine
consults. -/
structure POWSolution where
  id : Nat
  stale : Bool
deriving DecidableEq, Repr

/-- Modelled from the spec: outcome of the Ledger submit-registration call
(spec sections 4.3 and 6): success, an explicit failure whose reason
indicates the address became registered concurrently, or any other failure
reason. -/
inductive SubmitOutcome where
  | ok : SubmitOutcome
  | failAlreadyRegistered : SubmitOutcome
  | fail : String → SubmitOutcome
deriving DecidableEq, Repr

/-- Modelled from the spec: the Ledger collaborator as seen by the
RegistrationOrchestrator (spec section 6), reduced to the three queries the
state machine branches on; each is scripted by the number of calls made so
far, so a run is a deterministic function of the script. -/
structure RegLedger where
  regPoll : Nat → Bool
  solveAttempt : Nat → Option POWSolution
  submitAttempt : Nat → SubmitOutcome

/-- Modelled from the spec: the mutable RegistrationAttempt bookkeeping of
the orchestrator (spec section 3), extended with call counters and the list
of solutions submitted so the temporal claims can be read off a run. -/
structure OrchState where
  attempts : Nat
  polls : Nat
  solves : Nat
  submits : Nat
  submitted : List Nat
deriving DecidableEq, Repr

/-- Initial orchestrator bookkeeping: nothing attempted yet. -/
def initOrchState : OrchState := ⟨0, 0, 0, 0, []⟩

/-- Modelled from the spec: the control states of the
RegistrationOrchestrator state machine (spec section 4.3); Success and
Failure are represented as the terminal result of a run. -/
inductive Phase where
  | checkRegistered : Phase
  | solving : Phase
  | verifying : POWSolution → Phase
  | submitting : POWSolution → Phase
deriving DecidableEq, Repr

/-- Modelled from the spec: the terminal result reported to the caller
(spec section 6, RegistrationResult). -/
inductive RegResult where
  | success : RegResult
  | failure : RegResult
deriving DecidableEq, Repr

/-- Modelled from the spec: one transition of the RegistrationOrchestrator
state machine (spec section 4.3). CheckRegistered polls the ledger and
short-circuits to Success when the hotkey is already registered. Solving
consumes one solve cycle; a timeout with no solution counts as a spent
attempt, terminating in Failure once attempts reach the maximum and
otherwise looping back through CheckRegistered. Verifying discards a stale
solution and returns to Solving with a fresh block, and otherwise proceeds
to Submitting. Submitting consumes one submission: success or a
concurrent-registration failure reason terminates in Success, any other
failure spends an attempt and retries through CheckRegistered unless
attempts are exhausted. -/
def regStep (env : RegLedger) (maxAttempts : Nat) :
    Phase → OrchState → (RegResult × OrchState) ⊕ (Phase × OrchState)
  | .checkRegistered, st =>
      let registered := env.regPoll st.polls
      let st1 : OrchState := { st with polls := st.polls + 1 }
      if registered then .inl (.success, st1)
      else .inr (.solving, st1)
  | .solving, st =>
      let st1 : OrchState := { st with solves := st.solves + 1 }
      match env.solveAttempt st.solves with
      | none =>
          let st2 : OrchState := { st1 with attempts := st1.attempts + 1 }
          if maxAttempts ≤ st2.attempts then .inl (.failure, st2)
          else .inr (.checkRegistered, st2)
      | some sol => .inr (.verifying sol, st1)
  | .verifying sol, st =>
      if sol.stale then .inr (.solving, st)
      else .inr (.submitting sol, st)
  | .submitting sol, st =>
      let st1 : OrchState :=
        { st with submits := st.submits + 1, submitted := st.submitted ++ [sol.id] }
      match env.submitAttempt st.submits with
      | .ok => .inl (.success, st1)
      | .failAlreadyRegistered => .inl (.success, st1)
      | .fail _ =>
          let st2 : OrchState := { st1 with attempts := st1.attempts + 1 }
          if maxAttempts ≤ st2.attempts then .inl (.failure, st2)
          else .inr (.checkRegistered, st2)

/-- Modelled from the spec: a bounded run of the orchestrator state machine,
iterating `regStep` until a terminal result or until the step budget is
exhausted (`none`). -/
def regRun (env : RegLedger) (maxAttempts : Nat) :
    Nat → Phase → OrchState → Option (RegResult × OrchState)
  | 0, _, _ => none
  | fuel + 1, ph, st =>
      match regStep env maxAttempts ph st with
      | .inl r => some r
      | .inr (ph2, st2) => regRun env maxAttempts fuel ph2 st2

/-- Modelled from the spec: a full registration run starting at
CheckRegistered with fresh bookkeeping (spec section 4.3, Idle entry). -/
def register (env : RegLedger) (maxAttempts fuel : Nat) :
    Option (RegResult × OrchState) :=
  regRun env maxAttempts fuel .checkRegistered initOrchState

/-- Scripted ledger for the stale-then-fresh scenario: never registered,
first solution stale, second fresh, submission succeeds. -/
def staleThenFreshEnv : RegLedger where
  regPoll := fun _ => false
  solveAttempt := fun n => some ⟨n, n == 0⟩
  submitAttempt := fun _ => .ok

example : register staleThenFreshEnv 3 10 =
    some (.success, ⟨0, 1, 2, 1, [1]⟩) := by decide

lemma regRun_mono (env : RegLedger) (maxAttempts : Nat) :
    ∀ {n m : Nat} {ph : Phase} {st : OrchState} {r : RegResult × OrchState},
      n ≤ m → regRun env maxAttempts n ph st = some r →
      regRun env maxAttempts m ph st = some r := by
  intro n
  induction n with
  | zero => intro m ph st r _ h; simp [regRun] at h
  | succ k ih =>
      intro m ph st r hle h
      obtain ⟨m2, rfl⟩ : ∃ m2, m = m2 + 1 :=
        ⟨m - 1, by omega⟩
      rw [regRun] at h ⊢
      rcases hstep : regStep env maxAttempts ph st with r2 | p2
      · rw [hstep] at h; simpa [hstep] using h
      · rw [hstep] at h
        exact ih (by omega) h

/-- C1: in a registration run whose first solution is stale and whose second
solution is fresh and accepted by the ledger, the orchestrator discards the
stale solution without submitting it, solves again with a freshly fetched
block (two solve cycles in total), and issues exactly one submission call,
carrying the fresh solution only. -/
theorem C1_stale_solution_discarded_and_resolved
    (env : RegLedger) (maxAttempts fuel : Nat) (s0 s1 : POWSolution)
    (hfuel : 6 ≤ fuel)
    (hpoll : env.regPoll 0 = false)
    (hs0 : env.solveAttempt 0 = some s0) (hstale : s0.stale = true)
    (hs1 : env.solveAttempt 1 = some s1) (hfresh : s1.stale = false)
    (hsub : env.submitAttempt 0 = .ok) :
    register env maxAttempts fuel =
      some (.success, ⟨0, 1, 2, 1, [s1.id]⟩) := by
  apply regRun_mono env maxAttempts hfuel
  simp [register, regRun, regStep, initOrchState,
    hpoll, hs0, hstale, hs1, hfresh, hsub]

/-- Scripted ledger whose first poll already reports the hotkey registered. -/
def alwaysRegisteredEnv : RegLedger where
  regPoll := fun _ => true
  solveAttempt := fun _ => none
  submitAttempt := fun _ => .fail "unused"

/-- Witness for C1 on the concrete stale-then-fresh script. -/
theorem C1_stale_solution_discarded_and_resolved_witness :
    register staleThenFreshEnv 3 10 = some (.success, ⟨0, 1, 2, 1, [1]⟩) :=
  C1_stale_solution_discarded_and_resolved staleThenFreshEnv 3 10 ⟨0, true⟩ ⟨1, false⟩
    (by decide) rfl rfl rfl rfl rfl rfl

/-- C3: whenever the Ledger reports the hotkey already registered at a
CheckRegistered poll, the orchestrator transitions directly to Success in
that very step, with no further nonce search and no submission for the
cycle (solve and submit counters unchanged). -/
theorem C3_already_registered_is_noop_success
    (env : RegLedger) (maxAttempts fuel : Nat) (st : OrchState)
    (h : env.regPoll st.polls = true) :
    regRun env maxAttempts (fuel + 1) .checkRegistered st =
      some (.success, { st with polls := st.polls + 1 }) ∧
    ({ st with polls := st.polls + 1 } : OrchState).solves = st.solves ∧
    ({ st with polls := st.polls + 1 } : OrchState).submits = st.submits := by
  refine ⟨?_, rfl, rfl⟩
  simp [regRun, regStep, h]

/-- Witness for C3 on the concrete already-registered script. -/
theorem C3_already_registered_is_noop_success_witness :
    regRun alwaysRegisteredEnv 3 1 .checkRegistered initOrchState =
      some (.success, { initOrchState with polls := initOrchState.polls + 1 }) ∧
    ({ initOrchState with polls := initOrchState.polls + 1 } : OrchState).solves =
      initOrchState.solves ∧
    ({ initOrchState with polls := initOrchState.polls + 1 } : OrchState).submits =
      initOrchState.submits :=
  C3_already_registered_is_noop_success alwaysRegisteredEnv 3 0 initOrchState rfl

/-- C4: when the ledger rejects the first two submissions with a Failed
reason and accepts the third, and at least 3 attempts are allowed, the
orchestrator reports Success after exactly 3 submission attempts. -/
theorem C4_two_failures_then_success
    (env : RegLedger) (maxAttempts fuel : Nat) (s0 s1 s2 : POWSolution)
    (m0 m1 : String)
    (hfuel : 12 ≤ fuel) (hmax : 3 ≤ maxAttempts)
    (hp0 : env.regPoll 0 = false) (hp1 : env.regPoll 1 = false)
    (hp2 : env.regPoll 2 = false)
    (hs0 : env.solveAttempt 0 = some s0) (hf0 : s0.stale = false)
    (hs1 : env.solveAttempt 1 = some s1) (hf1 : s1.stale = false)
    (hs2 : env.solveAttempt 2 = some s2) (hf2 : s2.stale = false)
    (hb0 : env.submitAttempt 0 = .fail m0)
    (hb1 : env.submitAttempt 1 = .fail m1)
    (hb2 : env.submitAttempt 2 = .ok) :
    register env maxAttempts fuel =
      some (.success, ⟨2, 3, 3, 3, [s0.id, s1.id, s2.id]⟩) ∧
    (⟨2, 3, 3, 3, [s0.id, s1.id, s2.id]⟩ : OrchState).submits = 3 := by
  refine ⟨?_, rfl⟩
  apply regRun_mono env maxAttempts hfuel
  have hq1 : ¬ (maxAttempts ≤ 1) := by omega
  have hq2 : ¬ (maxAttempts ≤ 2) := by omega
  simp [register, regRun, regStep, initOrchState, hp0, hp1, hp2,
    hs0, hf0, hs1, hf1, hs2, hf2, hb0, hb1, hb2, hq1, hq2]

/-- Scripted ledger that always reports unregistered, always yields a fresh
solution, and fails the first two submissions before accepting the third. -/
def thirdTimeLuckyEnv : RegLedger where
  regPoll := fun _ => false
  solveAttempt := fun n => some ⟨n, false⟩
  submitAttempt := fun n => if n < 2 then .fail "Failed" else .ok

/-- Witness for C4 on the concrete fail-fail-succeed script. -/
theorem C4_two_failures_then_success_witness :
    register thirdTimeLuckyEnv 3 12 =
      some (.success, ⟨2, 3, 3, 3, [0, 1, 2]⟩) ∧
    (⟨2, 3, 3, 3, [0, 1, 2]⟩ : OrchState).submits = 3 :=
  C4_two_failures_then_success thirdTimeLuckyEnv 3 12 ⟨0, false⟩ ⟨1, false⟩ ⟨2, false⟩
    "Failed" "Failed" (by decide) (by decide) rfl rfl rfl rfl rfl rfl rfl rfl rfl
    rfl rfl rfl

/-- C5: when the registration polls report False, False, True in
succession and no solution arrives within either solve cycle, the
orchestrator reaches Success right at the third poll, after exactly 2
solve cycles and with no submission at all. -/
theorem C5_registered_on_third_poll
    (env : RegLedger) (maxAttempts fuel : Nat)
    (hfuel : 5 ≤ fuel) (hmax : 3 ≤ maxAttempts)
    (hp0 : env.regPoll 0 = false) (hp1 : env.regPoll 1 = false)
    (hp2 : env.regPoll 2 = true)
    (hs0 : env.solveAttempt 0 = none) (hs1 : env.solveAttempt 1 = none) :
    register env maxAttempts fuel = some (.success, ⟨2, 3, 2, 0, []⟩) ∧
    (⟨2, 3, 2, 0, []⟩ : OrchState).solves = 2 ∧
    (⟨2, 3, 2, 0, []⟩ : OrchState).submits = 0 := by
  refine ⟨?_, rfl, rfl⟩
  apply regRun_mono env maxAttempts hfuel
  have hq1 : ¬ (maxAttempts ≤ 1) := by omega
  have hq2 : ¬ (maxAttempts ≤ 2) := by omega
  simp [register, regRun, regStep, initOrchState, hp0, hp1, hp2,
    hs0, hs1, hq1, hq2]

/-- Scripted ledger that reports registered from the third poll on and
never produces a solution. -/
def registeredThirdPollEnv : RegLedger where
  regPoll := fun n => 2 ≤ n
  solveAttempt := fun _ => none
  submitAttempt := fun _ => .fail "unused"

/-- Witness for C5 on the concrete third-poll-registered script. -/
theorem C5_registered_on_third_poll_witness :
    register registeredThirdPollEnv 3 5 = some (.success, ⟨2, 3, 2, 0, []⟩) ∧
    (⟨2, 3, 2, 0, []⟩ : OrchState).solves = 2 ∧
    (⟨2, 3, 2, 0, []⟩ : OrchState).submits = 0 :=
  C5_registered_on_third_poll registeredThirdPollEnv 3 5 (by decide) (by decide)
    (by decide) (by decide) (by decide) rfl rfl

lemma regStep_invariant (env : RegLedger) (maxAttempts : Nat) (ph : Phase)
    (st : OrchState) (hsub : st.submits ≤ st.attempts)
    (hatt : st.attempts < maxAttempts) :
    (match regStep env maxAttempts ph st with
     | .inl (_, st2) => st2.submits ≤ maxAttempts
     | .inr (_, st2) =>
        st2.submits ≤ st2.attempts ∧ st2.attempts < maxAttempts) := by
  cases ph with
  | checkRegistered =>
      cases hp : env.regPoll st.polls <;> simp [regStep, hp] <;> omega
  | solving =>
      rcases hs : env.solveAttempt st.solves with _ | sol
      · by_cases hc : maxAttempts ≤ st.attempts + 1 <;>
          simp [regStep, hs, hc] <;> omega
      · simp [regStep, hs]; omega
  | verifying sol =>
      cases hstale : sol.stale <;> simp [regStep, hstale] <;> omega
  | submitting sol =>
      rcases hout : env.submitAttempt st.submits with _ | _ | m
      · simp [regStep, hout]; omega
      · simp [regStep, hout]; omega
      · by_cases hc : maxAttempts ≤ st.attempts + 1 <;>
          simp [regStep, hout, hc] <;> omega

lemma regRun_submits_bounded (env : RegLedger) (maxAttempts : Nat) :
    ∀ (fuel : Nat) (ph : Phase) (st : OrchState) (r : RegResult)
      (st2 : OrchState),
      st.submits ≤ st.attempts → st.attempts < maxAttempts →
      regRun env maxAttempts fuel ph st = some (r, st2) →
      st2.submits ≤ maxAttempts := by
  intro fuel
  induction fuel with
  | zero => intro ph st r st2 _ _ h; simp [regRun] at h
  | succ k ih =>
      intro ph st r st2 hsub hatt h
      have hinv := regStep_invariant env maxAttempts ph st hsub hatt
      rw [regRun] at h
      rcases hstep : regStep env maxAttempts ph st with ⟨r2, st3⟩ | ⟨ph2, st3⟩ <;>
        rw [hstep] at h hinv
      · simp only [Option.some.injEq, Prod.mk.injEq] at h
        obtain ⟨_, rfl⟩ := h
        simpa using hinv
      · have hinv2 : st3.submits ≤ st3.attempts ∧ st3.attempts < maxAttempts :=
          hinv
        exact ih ph2 st3 r st2 hinv2.1 hinv2.2 h

lemma regRun_allFail_exact (env : RegLedger) (maxAttempts : Nat)
    (hpoll : ∀ n, env.regPoll n = false)
    (hsolve : ∀ n, ∃ s, env.solveAttempt n = some s ∧ s.stale = false)
    (hsubmit : ∀ n, ∃ m, env.submitAttempt n = .fail m) :
    ∀ (k : Nat) (st : OrchState), 1 ≤ k → st.attempts + k = maxAttempts →
      ∃ st2, regRun env maxAttempts (4 * k) .checkRegistered st =
          some (.failure, st2) ∧
        st2.submits = st.submits + k ∧ st2.attempts = maxAttempts := by
  intro k
  induction k with
  | zero => intro st h1 _; omega
  | succ j ih =>
      intro st _ hsum
      obtain ⟨s, hs, hstale⟩ := hsolve st.solves
      obtain ⟨m, hm⟩ := hsubmit st.submits
      have h4 : 4 * (j + 1) = ((((4 * j) + 1) + 1) + 1) + 1 := by ring
      rw [h4]
      by_cases hj : j = 0
      · subst hj
        have hc : maxAttempts ≤ st.attempts + 1 := by omega
        refine ⟨⟨st.attempts + 1, st.polls + 1, st.solves + 1, st.submits + 1,
          st.submitted ++ [s.id]⟩, ?_, by simp, by simp; omega⟩
        simp [regRun, regStep, hpoll, hs, hstale, hm, hc]
      · have hc : ¬ (maxAttempts ≤ st.attempts + 1) := by omega
        obtain ⟨st2, hrun, hsubs, hatts⟩ :=
          ih ⟨st.attempts + 1, st.polls + 1, st.solves + 1, st.submits + 1,
            st.submitted ++ [s.id]⟩ (by omega) (by simp; omega)
        refine ⟨st2, ?_, by simp at hsubs; omega, hatts⟩
        simp only [regRun, regStep, hpoll, hs, hstale, hm, hc,
          Bool.false_eq_true, if_false, if_true]
        simpa using hrun

lemma regRun_noSolution_exact (env : RegLedger) (maxAttempts : Nat)
    (hpoll : ∀ n, env.regPoll n = false)
    (hsolve : ∀ n, env.solveAttempt n = none) :
    ∀ (k : Nat) (st : OrchState), 1 ≤ k → st.attempts + k = maxAttempts →
      ∃ st2, regRun env maxAttempts (2 * k) .checkRegistered st =
          some (.failure, st2) ∧
        st2.submits = st.submits ∧ st2.attempts = maxAttempts := by
  intro k
  induction k with
  | zero => intro st h1 _; omega
  | succ j ih =>
      intro st _ hsum
      have h2 : 2 * (j + 1) = ((2 * j) + 1) + 1 := by ring
      rw [h2]
      by_cases hj : j = 0
      · subst hj
        have hc : maxAttempts ≤ st.attempts + 1 := by omega
        refine ⟨⟨st.attempts + 1, st.polls + 1, st.solves + 1, st.submits,
          st.submitted⟩, ?_, by simp, by simp; omega⟩
        simp [regRun, regStep, hpoll, hsolve, hc]
      · have hc : ¬ (maxAttempts ≤ st.attempts + 1) := by omega
        obtain ⟨st2, hrun, hsubs, hatts⟩ :=
          ih ⟨st.attempts + 1, st.polls + 1, st.solves + 1, st.submits,
            st.submitted⟩ (by omega) (by simp; omega)
        refine ⟨st2, ?_, by simpa using hsubs, hatts⟩
        simp only [regRun, regStep, hpoll, hsolve, hc,
          Bool.false_eq_true, if_false, if_true]
        simpa using hrun

/-- C2: the orchestrator performs at most max_allowed_attempts submission
attempts in any terminating run; and when every attempt fails the run
terminates in Failure after exactly max_allowed_attempts attempts — both
when every submission is rejected with a Failed reason (one submission per
attempt) and when no solution is ever produced (no submissions at all). -/
theorem C2_max_attempts_bound :
    (∀ (env : RegLedger) (maxAttempts fuel : Nat) (r : RegResult)
        (st2 : OrchState), 1 ≤ maxAttempts →
        register env maxAttempts fuel = some (r, st2) →
        st2.submits ≤ maxAttempts)
  ∧ (∀ (env : RegLedger) (maxAttempts : Nat), 1 ≤ maxAttempts →
        (∀ n, env.regPoll n = false) →
        (∀ n, ∃ s, env.solveAttempt n = some s ∧ s.stale = false) →
        (∀ n, ∃ m, env.submitAttempt n = .fail m) →
        ∃ st2, register env maxAttempts (4 * maxAttempts) =
            some (.failure, st2) ∧
          st2.submits = maxAttempts ∧ st2.attempts = maxAttempts)
  ∧ (∀ (env : RegLedger) (maxAttempts : Nat), 1 ≤ maxAttempts →
        (∀ n, env.regPoll n = false) →
        (∀ n, env.solveAttempt n = none) →
        ∃ st2, register env maxAttempts (2 * maxAttempts) =
            some (.failure, st2) ∧
          st2.submits = 0 ∧ st2.attempts = maxAttempts) := by
  refine ⟨?_, ?_, ?_⟩
  · intro env maxAttempts fuel r st2 hmax h
    exact regRun_submits_bounded env maxAttempts fuel .checkRegistered
      initOrchState r st2 (by simp [initOrchState]) (by simpa [initOrchState]) h
  · intro env maxAttempts hmax hpoll hsolve hsubmit
    obtain ⟨st2, hrun, hsubs, hatts⟩ :=
      regRun_allFail_exact env maxAttempts hpoll hsolve hsubmit maxAttempts
        initOrchState hmax (by simp [initOrchState])
    exact ⟨st2, hrun, by simpa [initOrchState] using hsubs, hatts⟩
  · intro env maxAttempts hmax hpoll hsolve
    obtain ⟨st2, hrun, hsubs, hatts⟩ :=
      regRun_noSolution_exact env maxAttempts hpoll hsolve maxAttempts
        initOrchState hmax (by simp [initOrchState])
    exact ⟨st2, hrun, by simpa [initOrchState] using hsubs, hatts⟩

/-- Scripted ledger that always reports unregistered, always yields a fresh
solution, and rejects every submission with the reason Failed. -/
def allFailEnv : RegLedger where
  regPoll := fun _ => false
  solveAttempt := fun n => some ⟨n, false⟩
  submitAttempt := fun _ => .fail "Failed"

/-- Witness for C2 on the concrete all-failures script with 3 allowed
attempts: the run fails after exactly 3 submissions, within the bound. -/
theorem C2_max_attempts_bound_witness :
    register allFailEnv 3 12 = some (.failure, ⟨3, 3, 3, 3, [0, 1, 2]⟩) ∧
    (⟨3, 3, 3, 3, [0, 1, 2]⟩ : OrchState).submits ≤ 3 :=
  ⟨by decide,
    C2_max_attempts_bound.1 allFailEnv 3 12 .failure ⟨3, 3, 3, 3, [0, 1, 2]⟩
      (by decide) (by decide)⟩

/-- Comparison of two decimal literal weights by value, by cross
multiplication with the positive power-of-ten denominators. -/
def decLE (a b : DecimalLit) : Bool :=
  decide (a.mantissa * 10 ^ b.scale ≤ b.mantissa * 10 ^ a.scale)

/-- Maximum of two decimal literal weights by value. -/
def decMax (a b : DecimalLit) : DecimalLit :=
  if decLE a b then b else a

/-- Modelled from the spec: WeightCodec.encode, the source counterpart being
convert_weights_and_uids_for_emit, which is only called by the tests in the
provided source set (spec section 4.4): weights are normalized to the fixed
point range 0..65535 relative to the maximum weight, rounding half up, with
zero-valued entries dropped from both sequences while preserving UID order.
Weights are exact decimal literals and the quantization
round(w / maxWeight * 65535) is computed exactly by integer cross
multiplication, with round half up realised as (2n + d) / (2d) in integer
division. -/
def convert_weights_and_uids_for_emit (uids : List Nat)
    (weights : List DecimalLit) : List Nat × List Nat :=
  let maxWeight := weights.foldr decMax ⟨0, 0⟩
  let kept := (uids.zip weights).filter (fun p => p.2.mantissa ≠ 0)
  (kept.map Prod.fst,
   kept.map (fun p =>
     let n : Int := p.2.mantissa * 10 ^ maxWeight.scale * 65535
     let d : Int := maxWeight.mantissa * 10 ^ p.2.scale
     ((2 * n + d) / (2 * d)).toNat))

/-- Modelled from the spec: the fixed, order-sensitive serialization of a
commitment (spec section 4.5): address, netuid, uid sequence, value
sequence, salt, version key, concatenated in this documented order with
each variable-length field length-prefixed. -/
def serializeCommit (address : String) (netuid : Nat) (uids : List Nat)
    (values : List Nat) (salt : List Nat) (versionKey : Nat) : List Nat :=
  [address.length] ++ address.data.map Char.toNat ++ [netuid]
    ++ [uids.length] ++ uids ++ [values.length] ++ values
    ++ [salt.length] ++ salt ++ [versionKey]

/-- Modelled from the spec: the cryptographic hash function of
CommitmentHasher (spec section 4.5), modelled as a 64-bit
Fowler-Noll-Vo-style fold over the serialized field sequence; the claims
settled against it depend only on it being a deterministic function of the
serialization. -/
def hashFold (bytes : List Nat) : Nat :=
  bytes.foldl (fun h b => ((h ^^^ b % 2 ^ 64) * 1099511628211) % 2 ^ 64)
    14695981039346656037

/-- Modelled from the spec: generate_weight_hash, the commitment hash over
(address, netuid, uids, values, salt, version_key); its source counterpart
lives in weight_utils, only called by the tests in the provided source set. -/
def generate_weight_hash (address : String) (netuid : Nat) (uids : List Nat)
    (values : List Nat) (salt : List Nat) (versionKey : Nat) : Nat :=
  hashFold (serializeCommit address netuid uids values salt versionKey)

/-- Modelled from the spec: the ledger-side commitment store for one
(wallet, netuid) pair (spec sections 4.6 and 6): a commit records the hash. -/
structure CommitLedger where
  storedHash : Option Nat
deriving DecidableEq, Repr

/-- Modelled from the spec: submit_commit_weights stores the commitment
hash on the ledger and acknowledges (spec section 6). -/
def submit_commit_weights (_st : CommitLedger) (h : Nat) : CommitLedger × Bool :=
  (⟨some h⟩, true)

/-- Modelled from the spec: submit_reveal_weights; the Ledger recomputes
the commitment hash from the revealed uids, values, salt and version key
and compares it with the stored commit hash, rejecting on mismatch (spec
section 4.6, RevealEligible). -/
def submit_reveal_weights (st : CommitLedger) (address : String)
    (netuid : Nat) (uids : List Nat) (values : List Nat) (salt : List Nat)
    (versionKey : Nat) : Bool :=
  match st.storedHash with
  | some h => generate_weight_hash address netuid uids values salt versionKey == h
  | none => false

/-- Concrete hotkey address used by the end-to-end scenario. -/
def mockHotkeyAddress : String := "5MockHotkeyAddress"

/-- Encoded weights of the end-to-end scenario weights 0.1, 0.2, 0.3, 0.4
with uids 1, 2, 3, 4. -/
def scenarioEncoded : List Nat × List Nat :=
  convert_weights_and_uids_for_emit [1, 2, 3, 4] [⟨1, 1⟩, ⟨2, 1⟩, ⟨3, 1⟩, ⟨4, 1⟩]

/-- Commitment hash of the end-to-end scenario on netuid 3 with salt
1..8 and version key 0. -/
def scenarioHash : Nat :=
  generate_weight_hash mockHotkeyAddress 3 scenarioEncoded.1 scenarioEncoded.2
    [1, 2, 3, 4, 5, 6, 7, 8] 0

example : scenarioEncoded = ([1, 2, 3, 4], [16384, 32768, 49151, 65535]) := by
  decide

/-- C6: for weights 0.1, 0.2, 0.3, 0.4, uids 1..4, salt 1..8 and netuid 3,
committing the weights and revealing with byte-identical uid sequence,
value sequence, salt and version key succeeds at both steps, while a reveal
supplying a different salt fails the ledger hash verification. -/
theorem C6_commit_reveal_scenario :
    (submit_commit_weights ⟨none⟩ scenarioHash).2 = true ∧
    submit_reveal_weights (submit_commit_weights ⟨none⟩ scenarioHash).1
      mockHotkeyAddress 3 scenarioEncoded.1 scenarioEncoded.2
      [1, 2, 3, 4, 5, 6, 7, 8] 0 = true ∧
    submit_reveal_weights (submit_commit_weights ⟨none⟩ scenarioHash).1
      mockHotkeyAddress 3 scenarioEncoded.1 scenarioEncoded.2
      [8, 7, 6, 5, 4, 3, 2, 1] 0 = false := by
  refine ⟨rfl, by decide, by decide⟩

/-- C7: the commitment hash generate_weight_hash is a pure, deterministic
function of (address, netuid, uids, values, salt, version_key): any two
calls with identical inputs produce an identical hash. In the embedding
this purity holds by construction, since the hash is a function of exactly
these six inputs. -/
theorem C7_generate_weight_hash_deterministic
    (a a2 : String) (n n2 : Nat) (u u2 v v2 s s2 : List Nat) (k k2 : Nat)
    (ha : a = a2) (hn : n = n2) (hu : u = u2) (hv : v = v2) (hs : s = s2)
    (hk : k = k2) :
    generate_weight_hash a n u v s k =
      generate_weight_hash a2 n2 u2 v2 s2 k2 := by
  subst ha hn hu hv hs hk
  rfl

/-- Witness for C7 at the concrete scenario inputs. -/
theorem C7_generate_weight_hash_deterministic_witness :
    generate_weight_hash mockHotkeyAddress 3 [1] [2] [3] 0 =
      generate_weight_hash mockHotkeyAddress 3 [1] [2] [3] 0 :=
  C7_generate_weight_hash_deterministic mockHotkeyAddress mockHotkeyAddress
    3 3 [1] [1] [2] [2] [3] [3] 0 0 rfl rfl rfl rfl rfl rfl
